import Mathlib

/-!
# Verification of the 20-Questions evaluation harness (`evaluate_20Q.py`)

A shallow embedding of the core of `evaluate_20Q.py`:

* `Raw` models the Python values the oracle (ValidatorModel) may return:
  booleans, strings, dicts, and "anything else" (the last carries only its
  Python truthiness, i.e. the result of `bool(x)`, since that is the one
  thing the code ever does with such a value).
* `_normalize_answer` and `_parse_guess_result` embed the two normalizers.
* `run_single_game` embeds the per-game loop, with the agent modelled as a
  function of the invocation index and the observation (so an arbitrary
  stateful agent trace is representable) and the oracle's two validation
  operations modelled as functions of the round number and the text.
* `main_model` embeds the aggregation loop of `main` (argument parsing and
  stdout formatting are process-level glue; the summary's `wins/total`
  division is modelled, returning `none` exactly when Python would raise
  `ZeroDivisionError`).

Python string operations are embedded over the character list:
`pyStrip` is `str.strip()`, `pyLower` is `str.lower()` (ASCII case mapping;
`str.casefold` agrees on the ASCII range), `pyTruthy` is `bool(x)`.
-/

/-- Python values that can flow out of the oracle, as consumed by the
normalizers: `bool`, `str`, `dict` (association list, first binding wins),
and any other object, of which the code only ever observes `bool(x)`. -/
inductive Raw where
  | rbool (b : Bool)
  | rstr (s : String)
  | rdict (pairs : List (String × Raw))
  | rother (truthy : Bool)

/-- Characters removed by Python's `str.strip()` with no argument. -/
def pyIsSpace (c : Char) : Bool :=
  c == ' ' || c == '\t' || c == '\n' || c == '\r' || c == '\x0b' || c == '\x0c'

/-- Python `s.strip()`: drop leading and trailing whitespace. -/
def pyStrip (s : String) : String :=
  String.mk (((s.data.dropWhile pyIsSpace).reverse.dropWhile pyIsSpace).reverse)

/-- Python `s.lower()` on the ASCII range (also models `s.casefold()`,
which agrees with `lower` on ASCII). -/
def pyLower (s : String) : String :=
  String.mk (s.data.map Char.toLower)

/-- Python truthiness `bool(x)` of a `Raw` value: a bool is itself, a string
is truthy iff nonempty, a dict is truthy iff nonempty, and an `rother`
carries its own truthiness. -/
def pyTruthy : Raw → Bool
  | .rbool b => b
  | .rstr s => !(s == "")
  | .rdict pairs => !pairs.isEmpty
  | .rother t => t

/-- `for key in keys: if key in d: return d[key]` — the first key of `keys`
present in the dict, with its value. -/
def pairsFind (keys : List String) (pairs : List (String × Raw)) : Option Raw :=
  match keys with
  | [] => none
  | k :: ks =>
    match pairs.find? (fun p => p.1 == k) with
    | some p => some p.2
    | none => pairsFind ks pairs

theorem sizeOf_lt_of_pairsFind {keys : List String} {pairs : List (String × Raw)} {v : Raw}
    (h : pairsFind keys pairs = some v) : sizeOf v < sizeOf (Raw.rdict pairs) := by
  induction keys with
  | nil => simp [pairsFind] at h
  | cons k ks ih =>
    rw [pairsFind] at h
    cases hf : pairs.find? (fun p => p.1 == k) with
    | none => rw [hf] at h; exact ih h
    | some p =>
      rw [hf] at h
      have hmem : p ∈ pairs := List.mem_of_find?_eq_some hf
      have h1 : sizeOf p < sizeOf pairs := List.sizeOf_lt_of_mem hmem
      have h2 : sizeOf v < sizeOf p := by
        obtain ⟨a, b⟩ := p
        simp only [Option.some.injEq] at h
        subst h
        simp only [Prod.mk.sizeOf_spec]
        omega
      simp only [Raw.rdict.sizeOf_spec]
      omega

/-- The dict-key priority list of `_normalize_answer`. -/
def answerKeys : List String := ["answer", "response", "label", "result", "status"]

/-- Embedding of `_normalize_answer` (evaluate_20Q.py, lines 28-52):
convert a raw oracle answer into `"yes"`, `"no"` or `"maybe"`. -/
def _normalize_answer : Raw → String
  | .rbool b => if b then "yes" else "no"
  | .rstr s =>
    let t := pyLower (pyStrip s)
    if t ∈ ["yes", "y", "true", "1"] then "yes"
    else if t ∈ ["no", "n", "false", "0"] then "no"
    else if t ∈ ["maybe", "unsure", "unknown", "not sure", "idk"] then "maybe"
    else "maybe"
  | .rdict pairs =>
    match _h : pairsFind answerKeys pairs with
    | some v => _normalize_answer v
    | none => "maybe"
  | .rother _ => "maybe"
termination_by r => sizeOf r
decreasing_by exact sizeOf_lt_of_pairsFind _h

theorem normalize_answer_rdict_some {pairs : List (String × Raw)} {v : Raw}
    (h : pairsFind answerKeys pairs = some v) :
    _normalize_answer (.rdict pairs) = _normalize_answer v := by
  simp only [_normalize_answer]
  split
  · next v' hv' => rw [h] at hv'; cases hv'; rfl
  · next hv' => rw [h] at hv'; cases hv'

theorem normalize_answer_rdict_none {pairs : List (String × Raw)}
    (h : pairsFind answerKeys pairs = none) :
    _normalize_answer (.rdict pairs) = "maybe" := by
  simp only [_normalize_answer]
  split
  · next v' hv' => rw [h] at hv'; cases hv'
  · rfl

/-- The dict-key priority list of `_parse_guess_result`. -/
def guessKeys : List String := ["correct", "is_correct", "match", "result"]

/-- Embedding of `_parse_guess_result` (evaluate_20Q.py, lines 55-72):
convert a raw oracle guess-validation result into a boolean. -/
def _parse_guess_result : Raw → Bool
  | .rbool b => b
  | .rstr s =>
    decide (pyLower (pyStrip s) ∈ ["yes", "correct", "true", "right", "1", "match"])
  | .rdict pairs =>
    match pairsFind guessKeys pairs with
    | some v => pyTruthy v
    | none => false
  | .rother _ => false

/-- `_normalize_answer` only ever returns one of the three canonical strings. -/
theorem normalize_answer_mem :
    ∀ r, _normalize_answer r ∈ (["yes", "no", "maybe"] : List String) := by
  have key : ∀ n, ∀ r, sizeOf r ≤ n →
      _normalize_answer r ∈ (["yes", "no", "maybe"] : List String) := by
    intro n
    induction n with
    | zero =>
      intro r h
      exfalso
      cases r <;> simp_all
    | succ n ih =>
      intro r h
      match r with
      | .rbool b => cases b <;> simp [_normalize_answer]
      | .rstr s =>
        simp only [_normalize_answer]
        split
        · simp
        · split
          · simp
          · split <;> simp
      | .rdict pairs =>
        cases hv : pairsFind answerKeys pairs with
        | some v =>
          rw [normalize_answer_rdict_some hv]
          apply ih
          have := sizeOf_lt_of_pairsFind hv
          simp only [Raw.rdict.sizeOf_spec] at this h
          omega
        | none => rw [normalize_answer_rdict_none hv]; simp
      | .rother t => simp [_normalize_answer]
  intro r
  exact key (sizeOf r) r le_rfl

/-! ## Reference definitions from the spec's words (§4.1), for the refinement claims -/

/-- Spec §4.1: the fixed synonym sets of `normalize_answer`, with the canonical
answer each set maps to. -/
def synonymTable : List (List String × String) :=
  [ (["yes", "y", "true", "1"], "yes"),
    (["no", "n", "false", "0"], "no"),
    (["maybe", "unsure", "unknown", "not sure", "idk"], "maybe") ]

/-- Look a normalized text up in the synonym table; any other text is `"maybe"`. -/
def lookupSynonym (t : String) : String :=
  match synonymTable.find? (fun p => decide (t ∈ p.1)) with
  | some p => p.2
  | none => "maybe"

/-- `normalize_answer` as the spec words it (§4.1): booleans map to yes/no,
trimmed case-folded text goes through the synonym table, a keyed mapping is
resolved by the first present key of the priority list with its value
normalized recursively, anything else is `"maybe"`. -/
def normalize_answer_spec : Raw → String
  | .rbool b => if b then "yes" else "no"
  | .rstr s => lookupSynonym (pyLower (pyStrip s))
  | .rdict pairs =>
    match _h : pairsFind answerKeys pairs with
    | some v => normalize_answer_spec v
    | none => "maybe"
  | .rother _ => "maybe"
termination_by r => sizeOf r
decreasing_by exact sizeOf_lt_of_pairsFind _h

theorem normalize_answer_spec_rdict_some {pairs : List (String × Raw)} {v : Raw}
    (h : pairsFind answerKeys pairs = some v) :
    normalize_answer_spec (.rdict pairs) = normalize_answer_spec v := by
  simp only [normalize_answer_spec]
  split
  · next v' hv' => rw [h] at hv'; cases hv'; rfl
  · next hv' => rw [h] at hv'; cases hv'

theorem normalize_answer_spec_rdict_none {pairs : List (String × Raw)}
    (h : pairsFind answerKeys pairs = none) :
    normalize_answer_spec (.rdict pairs) = "maybe" := by
  simp only [normalize_answer_spec]
  split
  · next v' hv' => rw [h] at hv'; cases hv'
  · rfl

theorem normalize_answer_eq_spec : ∀ r, _normalize_answer r = normalize_answer_spec r := by
  have key : ∀ n, ∀ r, sizeOf r ≤ n → _normalize_answer r = normalize_answer_spec r := by
    intro n
    induction n with
    | zero =>
      intro r h
      exfalso
      cases r <;> simp_all
    | succ n ih =>
      intro r h
      match r with
      | .rbool b => simp [_normalize_answer, normalize_answer_spec]
      | .rstr s =>
        simp only [_normalize_answer, normalize_answer_spec]
        by_cases h1 : pyLower (pyStrip s) ∈ ["yes", "y", "true", "1"] <;>
          by_cases h2 : pyLower (pyStrip s) ∈ ["no", "n", "false", "0"] <;>
          by_cases h3 : pyLower (pyStrip s) ∈ ["maybe", "unsure", "unknown", "not sure", "idk"] <;>
          simp [lookupSynonym, synonymTable, List.find?, h1, h2, h3]
      | .rdict pairs =>
        cases hv : pairsFind answerKeys pairs with
        | some v =>
          rw [normalize_answer_rdict_some hv, normalize_answer_spec_rdict_some hv]
          apply ih
          have := sizeOf_lt_of_pairsFind hv
          simp only [Raw.rdict.sizeOf_spec] at this h
          omega
        | none => rw [normalize_answer_rdict_none hv, normalize_answer_spec_rdict_none hv]
      | .rother t => simp [_normalize_answer, normalize_answer_spec]
  intro r
  exact key (sizeOf r) r le_rfl

/-- Spec §4.1: the fixed truthy set of `normalize_guess_result`. -/
def truthyWords : List String := ["yes", "correct", "true", "right", "1", "match"]

/-- `normalize_guess_result` as the spec words it (§4.1): booleans pass
through, trimmed case-insensitive text is matched against the truthy set, a
keyed mapping is resolved by the first present key of the priority list with
its value coerced to boolean, anything else is `false`. -/
def parse_guess_result_spec : Raw → Bool
  | .rbool b => b
  | .rstr s => truthyWords.contains (pyLower (pyStrip s))
  | .rdict pairs => ((pairsFind guessKeys pairs).map pyTruthy).getD false
  | .rother _ => false

theorem parse_guess_result_eq_spec : ∀ r, _parse_guess_result r = parse_guess_result_spec r := by
  intro r
  match r with
  | .rbool b => rfl
  | .rstr s =>
    simp only [_parse_guess_result, parse_guess_result_spec, truthyWords]
    by_cases h : pyLower (pyStrip s) ∈ ["yes", "correct", "true", "right", "1", "match"] <;>
      simp [h]
  | .rdict pairs =>
    simp only [_parse_guess_result, parse_guess_result_spec]
    cases pairsFind guessKeys pairs <;> simp
  | .rother t => rfl

/-- The three canonical strings are fixed points of `_normalize_answer`. -/
theorem normalize_answer_canonical_fixed :
    _normalize_answer (.rstr "yes") = "yes" ∧ _normalize_answer (.rstr "no") = "no" ∧
      _normalize_answer (.rstr "maybe") = "maybe" := by
  refine ⟨?_, ?_, ?_⟩ <;> (simp only [_normalize_answer]; decide)

/-! ## Embedding of the game loop (`run_single_game`, evaluate_20Q.py lines 96-168)

The agent (`guesser_agent`) is modelled as a function of the invocation
index and the observation it is handed, so any deterministic stateful agent
trace is representable; the oracle's `validate_question` and
`validate_guess` are modelled as functions of the 1-based round number and
the text they are called with (the code makes exactly one call to each per
round). `ValidatorModel()` construction and the best-effort target-label
probing are logging-only and carry no game logic, so the embedded result
omits the `maybe_target` component of the Python return tuple. -/

def ASK : String := "ask"

def GUESS : String := "guess"

/-- The fallback question substituted for a blank ASK response (line 130). -/
def FALLBACK_QUESTION : String := "Is it related to a well-known person?"

/-- The `SimpleNamespace` observation handed to the agent. -/
structure Obs where
  turnType : String
  questions : List String
  answers : List String
  question_guesses : List String
  answer_guesses_list : List String

/-- The per-game mutable history of `run_single_game`, plus `acalls`, the
number of agent invocations made so far (the index into the agent trace). -/
structure GState where
  questions : List String
  answers : List String
  guesses : List String
  pastNorm : List String
  acalls : Nat

/-- `_norm` (line 115): `s.casefold().strip()`. -/
def pyNormGuess (s : String) : String := pyStrip (pyLower s)

/-- A raw guess attempt, stripped, with `"unknown"` substituted when blank
(lines 149-151 and 154). -/
def fallbackGuess (s : String) : String :=
  let g := pyStrip s
  if g = "" then "unknown" else g

/-- The dedup `while` loop (lines 152-155): while the normalized guess has
already been tried and fewer than 5 retries have been made, re-invoke the
agent (`calls` is the stream of agent results for this fixed observation;
`calls k` is the result of the k-th invocation). `fuel` is an upper bound
on the remaining loop iterations; since each iteration increments `tries`
and the guard requires `tries < 5`, fuel `5` from `tries = 0` makes the
fuel bound unreachable, so this is exactly the Python loop. -/
def dedupGo (calls : Nat → String) (past : List String) (guess : String)
    (tries : Nat) : Nat → String × Nat
  | 0 => (guess, tries)
  | fuel + 1 =>
    if pyNormGuess guess ∈ past ∧ tries < 5 then
      dedupGo calls past (fallbackGuess (calls (tries + 1))) (tries + 1) fuel
    else (guess, tries)

/-- The whole dedup sub-step of a GUESS turn (lines 148-155): first attempt,
then the retry loop. Returns the accepted guess and the number of retries. -/
def dedupGuess (calls : Nat → String) (past : List String) : String × Nat :=
  dedupGo calls past (fallbackGuess (calls 0)) 0 5

/-- The outcome of one iteration of the round loop: the updated history,
the accepted guess, the number of dedup retries, and the normalized
guess-validation result. -/
structure RoundOut where
  state : GState
  guess : String
  tries : Nat
  correct : Bool

/-- The ASK-turn observation built from the state at the top of a round
(lines 120-126). -/
def mkAskObs (st : GState) : Obs :=
  ⟨ASK, st.questions, st.answers, st.guesses, st.answers⟩

/-- One iteration of the round loop of `run_single_game` (lines 118-164):
ASK turn with blank-question fallback, question validation and answer
normalization, GUESS turn through the deduplicator, guess validation. -/
def roundStep (agent : Nat → Obs → String) (vq vg : Nat → String → Raw)
    (qnum : Nat) (st : GState) : RoundOut :=
  let q0 := pyStrip (agent st.acalls (mkAskObs st))
  let question := if q0 = "" then FALLBACK_QUESTION else q0
  let questions := st.questions ++ [question]
  let ans := _normalize_answer (vq qnum question)
  let answers := st.answers ++ [ans]
  let obsGuess : Obs := ⟨GUESS, questions, answers, st.guesses, answers⟩
  let gd := dedupGuess (fun k => agent (st.acalls + 1 + k) obsGuess) st.pastNorm
  let pastNorm := st.pastNorm ++ [pyNormGuess gd.1]
  let guesses := st.guesses ++ [gd.1]
  let correct := _parse_guess_result (vg qnum gd.1)
  ⟨⟨questions, answers, guesses, pastNorm, st.acalls + 2 + gd.2⟩, gd.1, gd.2, correct⟩

/-- The final result of one game: the Python return tuple
`(won, final_guess, rounds_used)` minus the logging-only target. -/
structure GameResult where
  won : Bool
  final_guess : String
  rounds_used : Int

/-- The `for qnum in range(1, max_rounds + 1)` loop (lines 118-168):
`remaining` counts the rounds still to run; on a correct guess return
`(True, guess, qnum)`, after the last round return
`(False, guesses[-1] if guesses else "", max_rounds)`. -/
def gameLoop (agent : Nat → Obs → String) (vq vg : Nat → String → Raw)
    (maxRounds : Int) : Nat → Nat → GState → GameResult
  | _, 0, st => ⟨false, (st.guesses.getLast?).getD "", maxRounds⟩
  | qnum, remaining + 1, st =>
    let r := roundStep agent vq vg qnum st
    if r.correct then ⟨true, r.guess, (qnum : Int)⟩
    else gameLoop agent vq vg maxRounds (qnum + 1) remaining r.state

/-- The fresh history at the start of a game (lines 110-113). -/
def initState : GState := ⟨[], [], [], [], 0⟩

/-- Embedding of `run_single_game(max_rounds)` (lines 96-168). `max_rounds`
is a Python int, so it is modelled as `Int`; `range(1, max_rounds + 1)` has
`max_rounds.toNat` elements. -/
def run_single_game (agent : Nat → Obs → String) (vq vg : Nat → String → Raw)
    (max_rounds : Int) : GameResult :=
  gameLoop agent vq vg max_rounds 1 max_rounds.toNat initState

/-! ### The round trace

`stateAfter n` is the history after `n` completed rounds, ignoring early
exit; the round bodies do not depend on earlier guess-validation results,
so the game that stops at the first correct guess passes through exactly
these states. `roundAt n` is the full outcome of round `n` (1-based). -/

section Trace

variable (agent : Nat → Obs → String) (vq vg : Nat → String → Raw)

/-- History after `n` completed rounds. -/
def stateAfter : Nat → GState
  | 0 => initState
  | n + 1 => (roundStep agent vq vg (n + 1) (stateAfter n)).state

/-- The outcome of round `n` (meaningful for `n ≥ 1`). -/
def roundAt (n : Nat) : RoundOut :=
  roundStep agent vq vg n (stateAfter agent vq vg (n - 1))

/-- The guess accepted in round `n`. -/
def guessAt (n : Nat) : String := (roundAt agent vq vg n).guess

/-- The normalized guess-validation result of round `n`. -/
def correctAt (n : Nat) : Bool := (roundAt agent vq vg n).correct

/-- The number of dedup retries made in round `n`. -/
def triesAt (n : Nat) : Nat := (roundAt agent vq vg n).tries

theorem stateAfter_succ (n : Nat) :
    stateAfter agent vq vg (n + 1) = (roundAt agent vq vg (n + 1)).state := by
  simp [stateAfter, roundAt]

end Trace

/-! ## Embedding of the evaluation driver (`main`, evaluate_20Q.py lines 171-191)

`argparse` and `print` are process glue; what is modelled is the game loop
`for i in range(1, total + 1)`, the win tally, and the summary computation
`wins/total`, which in Python raises `ZeroDivisionError` exactly when
`total == 0` — modelled by returning `none` there. `game i` is the outcome
of the i-th call to `run_single_game` (1-based). The win rate is the exact
rational `wins/total`; rendering it to one decimal percent is stdout
formatting. -/

def main_model (game : Nat → GameResult) (num : Int) :
    Option (List GameResult × Nat × Rat) :=
  let results := (List.range num.toNat).map (fun i => game (i + 1))
  let wins := results.foldl (fun w r => w + (if r.won then 1 else 0)) 0
  if num = 0 then none
  else some (results, wins, (wins : Rat) / (num : Rat))

/-! ## Deduplicator lemmas -/

theorem dedupGo_spec (calls : Nat → String) (past : List String) :
    ∀ fuel guess tries, tries + fuel = 5 →
      (dedupGo calls past guess tries fuel).2 ≤ 5 ∧
        ((dedupGo calls past guess tries fuel).2 < 5 →
          pyNormGuess (dedupGo calls past guess tries fuel).1 ∉ past) := by
  intro fuel
  induction fuel with
  | zero =>
    intro guess tries h
    simp only [dedupGo]
    omega
  | succ fuel ih =>
    intro guess tries h
    simp only [dedupGo]
    split
    · exact ih (fallbackGuess (calls (tries + 1))) (tries + 1) (by omega)
    · next hguard =>
      refine ⟨by omega, ?_⟩
      intro hlt hmem
      exact hguard ⟨hmem, hlt⟩

theorem dedupGuess_tries_le (calls : Nat → String) (past : List String) :
    (dedupGuess calls past).2 ≤ 5 :=
  (dedupGo_spec calls past 5 (fallbackGuess (calls 0)) 0 rfl).1

theorem dedupGuess_fresh (calls : Nat → String) (past : List String)
    (h : (dedupGuess calls past).2 < 5) :
    pyNormGuess (dedupGuess calls past).1 ∉ past :=
  (dedupGo_spec calls past 5 (fallbackGuess (calls 0)) 0 rfl).2 h

theorem fallbackGuess_blank {s : String} (h : pyStrip s = "") :
    fallbackGuess s = "unknown" := by
  simp [fallbackGuess, h]

theorem dedupGo_unknown (calls : Nat → String) (past : List String)
    (h : ∀ k, pyStrip (calls k) = "") :
    ∀ fuel tries, (dedupGo calls past "unknown" tries fuel).1 = "unknown" := by
  intro fuel
  induction fuel with
  | zero => intro tries; rfl
  | succ fuel ih =>
    intro tries
    simp only [dedupGo]
    split
    · rw [fallbackGuess_blank (h (tries + 1))]
      exact ih (tries + 1)
    · rfl

theorem dedupGuess_unknown (calls : Nat → String) (past : List String)
    (h : ∀ k, pyStrip (calls k) = "") : (dedupGuess calls past).1 = "unknown" := by
  unfold dedupGuess
  rw [fallbackGuess_blank (h 0)]
  exact dedupGo_unknown calls past h 5 0

/-! ## Round-trace lemmas -/

section TraceLemmas

variable (agent : Nat → Obs → String) (vq vg : Nat → String → Raw)

theorem roundStep_state_questions (qnum : Nat) (st : GState) :
    (roundStep agent vq vg qnum st).state.questions =
      st.questions ++ [if pyStrip (agent st.acalls (mkAskObs st)) = ""
        then FALLBACK_QUESTION else pyStrip (agent st.acalls (mkAskObs st))] := rfl

theorem roundStep_state_guesses (qnum : Nat) (st : GState) :
    (roundStep agent vq vg qnum st).state.guesses =
      st.guesses ++ [(roundStep agent vq vg qnum st).guess] := rfl

theorem roundStep_state_pastNorm (qnum : Nat) (st : GState) :
    (roundStep agent vq vg qnum st).state.pastNorm =
      st.pastNorm ++ [pyNormGuess (roundStep agent vq vg qnum st).guess] := rfl

theorem roundAt_dedup (n : Nat) :
    ∃ calls : Nat → String,
      (roundAt agent vq vg (n + 1)).guess =
          (dedupGuess calls ((stateAfter agent vq vg n).pastNorm)).1 ∧
        (roundAt agent vq vg (n + 1)).tries =
          (dedupGuess calls ((stateAfter agent vq vg n).pastNorm)).2 :=
  ⟨_, rfl, rfl⟩

theorem stateAfter_guesses_succ (n : Nat) :
    (stateAfter agent vq vg (n + 1)).guesses =
      (stateAfter agent vq vg n).guesses ++ [guessAt agent vq vg (n + 1)] := rfl

theorem stateAfter_pastNorm_eq_map (n : Nat) :
    (stateAfter agent vq vg n).pastNorm =
      (stateAfter agent vq vg n).guesses.map pyNormGuess := by
  induction n with
  | zero => rfl
  | succ n ih =>
    rw [stateAfter_succ, roundAt]
    rw [roundStep_state_pastNorm, roundStep_state_guesses, List.map_append]
    simp only [Nat.add_sub_cancel]
    rw [ih]
    rfl

theorem guessAt_mem_stateAfter (i n : Nat) (h1 : 1 ≤ i) (h2 : i ≤ n) :
    guessAt agent vq vg i ∈ (stateAfter agent vq vg n).guesses := by
  induction n with
  | zero => omega
  | succ n ih =>
    rw [stateAfter_guesses_succ]
    rcases Nat.lt_or_ge i (n + 1) with hlt | hge
    · exact List.mem_append_left _ (ih (by omega))
    · have : i = n + 1 := by omega
      subst this
      exact List.mem_append_right _ (List.mem_singleton.mpr rfl)

theorem stateAfter_guesses_getLast (n : Nat) (h : 1 ≤ n) :
    ((stateAfter agent vq vg n).guesses.getLast?).getD "" = guessAt agent vq vg n := by
  match n, h with
  | m + 1, _ =>
    rw [stateAfter_guesses_succ, List.getLast?_concat]
    rfl

end TraceLemmas

/-! ## Game-loop lemmas -/

section GameLemmas

variable (agent : Nat → Obs → String) (vq vg : Nat → String → Raw) (M : Int)

theorem correctAt_roundStep (q : Nat) :
    correctAt agent vq vg (q + 1) =
      (roundStep agent vq vg (q + 1) (stateAfter agent vq vg q)).correct := by
  simp [correctAt, roundAt]

theorem guessAt_roundStep (q : Nat) :
    guessAt agent vq vg (q + 1) =
      (roundStep agent vq vg (q + 1) (stateAfter agent vq vg q)).guess := by
  simp [guessAt, roundAt]

theorem gameLoop_lose :
    ∀ (r q : Nat), (∀ k, q < k → k ≤ q + r → correctAt agent vq vg k = false) →
      gameLoop agent vq vg M (q + 1) r (stateAfter agent vq vg q) =
        ⟨false, (((stateAfter agent vq vg (q + r)).guesses.getLast?).getD ""), M⟩ := by
  intro r
  induction r with
  | zero => intro q h; simp [gameLoop]
  | succ r ih =>
    intro q h
    simp only [gameLoop]
    have hc : (roundStep agent vq vg (q + 1) (stateAfter agent vq vg q)).correct = false := by
      rw [← correctAt_roundStep]
      exact h (q + 1) (by omega) (by omega)
    rw [hc]
    simp only [Bool.false_eq_true, if_false]
    have hst : (roundStep agent vq vg (q + 1) (stateAfter agent vq vg q)).state =
        stateAfter agent vq vg (q + 1) := rfl
    rw [hst]
    have harith : q + (r + 1) = (q + 1) + r := by omega
    rw [harith]
    exact ih (q + 1) (fun k h1 h2 => h k (by omega) (by omega))

theorem gameLoop_win :
    ∀ (r q n : Nat), q < n → n ≤ q + r → correctAt agent vq vg n = true →
      (∀ k, q < k → k < n → correctAt agent vq vg k = false) →
      gameLoop agent vq vg M (q + 1) r (stateAfter agent vq vg q) =
        ⟨true, guessAt agent vq vg n, (n : Int)⟩ := by
  intro r
  induction r with
  | zero => intro q n h1 h2; omega
  | succ r ih =>
    intro q n h1 h2 hc hmin
    simp only [gameLoop]
    rcases Nat.lt_or_ge (q + 1) n with hlt | hge
    · have hfalse : (roundStep agent vq vg (q + 1) (stateAfter agent vq vg q)).correct = false := by
        rw [← correctAt_roundStep]
        exact hmin (q + 1) (by omega) hlt
      rw [hfalse]
      simp only [Bool.false_eq_true, if_false]
      have hst : (roundStep agent vq vg (q + 1) (stateAfter agent vq vg q)).state =
          stateAfter agent vq vg (q + 1) := rfl
      rw [hst]
      exact ih (q + 1) n hlt (by omega) hc (fun k hk1 hk2 => hmin k (by omega) hk2)
    · have hn : n = q + 1 := by omega
      subst hn
      have htrue : (roundStep agent vq vg (q + 1) (stateAfter agent vq vg q)).correct = true := by
        rw [← correctAt_roundStep]
        exact hc
      rw [htrue]
      simp only [if_true]
      rw [← guessAt_roundStep]

end GameLemmas

/-- The Game-Record contract of one game (spec §4.2 / §8): `rounds_used` is a
positive round count within the bound, `won` holds iff the normalized
guess-validation result of round `rounds_used` was true and that of every
earlier round false, on a win the final guess is the guess of the winning
round, and on exhaustion the final guess is the last guess made and
`rounds_used = max_rounds`. -/
def gameOutcomeSpec (agent : Nat → Obs → String) (vq vg : Nat → String → Raw)
    (M : Int) : Prop :=
  let res := run_single_game agent vq vg M
  ∃ n : Nat, res.rounds_used = (n : Int) ∧ 1 ≤ n ∧ (n : Int) ≤ M ∧
    (res.won = true ↔ correctAt agent vq vg n = true ∧
      ∀ k, 1 ≤ k → k < n → correctAt agent vq vg k = false) ∧
    (res.won = true → res.final_guess = guessAt agent vq vg n) ∧
    (res.won = false → (n : Int) = M ∧ res.final_guess = guessAt agent vq vg n)

/-! ## Auxiliary lemmas for the driver -/

theorem foldl_win_count : ∀ (l : List GameResult) (w : Nat),
    l.foldl (fun acc r => acc + (if r.won then 1 else 0)) w
      = w + (l.filter (fun r => r.won)).length := by
  intro l
  induction l with
  | nil => intro w; simp
  | cons r t ih =>
    intro w
    cases hr : r.won <;> simp [List.filter, hr, ih] <;> omega

/-! ## Concrete collaborators used by the witnesses -/

/-- A deterministic agent: a fixed question on ASK turns, always the guess
`"lion"` on GUESS turns. -/
def demoAgent : Nat → Obs → String :=
  fun _ o => if o.turnType = ASK then "Is it an animal?" else "lion"

/-- An oracle question-validation trace that always answers `"yes"`. -/
def demoVq : Nat → String → Raw := fun _ _ => .rstr "yes"

/-- A guess-validation trace that accepts every guess. -/
def demoVgWin : Nat → String → Raw := fun _ _ => .rbool true

/-- A guess-validation trace that rejects every guess. -/
def demoVgLose : Nat → String → Raw := fun _ _ => .rbool false

/-- An agent that never returns any text. -/
def blankAgent : Nat → Obs → String := fun _ _ => ""

/-- A fixed losing game outcome, for exercising the driver model. -/
def demoLoss : Nat → GameResult := fun _ => ⟨false, "zebra", 3⟩

/-- Game outcomes with exactly one win (game 1) out of two. -/
def demoMixed : Nat → GameResult :=
  fun i => if i = 1 then ⟨true, "lion", 1⟩ else ⟨false, "zebra", 3⟩

/-! ## The claims -/

/-- **C1.** For every game run with `max_rounds ≥ 1`, `run_single_game`
returns `won = true` iff the normalized oracle guess-validation result was
true on round `rounds_used` and false on every earlier round; `rounds_used`
lies in `[1, max_rounds]`; on a win the final guess is the guess of round
`rounds_used`, and on exhaustion the final guess is the last guess made and
`rounds_used = max_rounds`. -/
theorem C1_run_single_game_outcome (agent : Nat → Obs → String)
    (vq vg : Nat → String → Raw) (M : Int) (hM : 1 ≤ M) :
    gameOutcomeSpec agent vq vg M := by
  have hm : 1 ≤ M.toNat := by omega
  by_cases hex : ∃ n, 1 ≤ n ∧ n ≤ M.toNat ∧ correctAt agent vq vg n = true
  · classical
    let n₀ := Nat.find hex
    have hspec : 1 ≤ n₀ ∧ n₀ ≤ M.toNat ∧ correctAt agent vq vg n₀ = true := Nat.find_spec hex
    have hmin : ∀ k, 1 ≤ k → k < n₀ → correctAt agent vq vg k = false := by
      intro k hk1 hk2
      by_contra hk
      have hk' : correctAt agent vq vg k = true := by
        cases h : correctAt agent vq vg k
        · exact absurd h hk
        · rfl
      exact Nat.find_min hex hk2 ⟨hk1, by omega, hk'⟩
    have hrun : run_single_game agent vq vg M =
        ⟨true, guessAt agent vq vg n₀, (n₀ : Int)⟩ := by
      unfold run_single_game
      have h0 : initState = stateAfter agent vq vg 0 := rfl
      rw [h0]
      have := gameLoop_win agent vq vg M M.toNat 0 n₀ (by omega) (by omega) hspec.2.2
        (fun k hk1 hk2 => hmin k (by omega) hk2)
      simpa using this
    rw [gameOutcomeSpec, hrun]
    refine ⟨n₀, rfl, hspec.1, by omega, ?_, fun _ => rfl, fun h => nomatch h⟩
    constructor
    · intro _
      exact ⟨hspec.2.2, hmin⟩
    · intro _
      rfl
  · push_neg at hex
    have hall : ∀ k, 1 ≤ k → k ≤ M.toNat → correctAt agent vq vg k = false := by
      intro k hk1 hk2
      cases h : correctAt agent vq vg k
      · rfl
      · exact absurd h (by simpa using hex k hk1 hk2)
    have hrun : run_single_game agent vq vg M =
        ⟨false, guessAt agent vq vg M.toNat, M⟩ := by
      unfold run_single_game
      have h0 : initState = stateAfter agent vq vg 0 := rfl
      rw [h0]
      have := gameLoop_lose agent vq vg M M.toNat 0
        (fun k hk1 hk2 => hall k (by omega) (by omega))
      simp only [Nat.zero_add] at this
      rw [this, stateAfter_guesses_getLast agent vq vg M.toNat hm]
    rw [gameOutcomeSpec, hrun]
    refine ⟨M.toNat, ?_, hm, ?_, ?_, ?_, ?_⟩
    · show M = (M.toNat : Int)
      omega
    · show (M.toNat : Int) ≤ M
      omega
    · constructor
      · intro h
        exact nomatch h
      · intro hcon
        rw [hall M.toNat hm (le_refl _)] at hcon
        exact nomatch hcon.1
    · intro h
      exact nomatch h
    · intro _
      exact ⟨by omega, rfl⟩

/-- Witness for C1 at a concrete input: a 3-round game against the demo
collaborators. -/
theorem C1_witness : gameOutcomeSpec demoAgent demoVq demoVgWin 3 :=
  C1_run_single_game_outcome demoAgent demoVq demoVgWin 3 (by decide)

/-- **C2.** The claim says a configuration error (`N ≤ 0`) is rejected
before any game runs and the summary division can never divide by zero.
The code performs no such validation: at `N = 0` the games loop runs zero
times and the summary `wins/total` divides by zero (`main_model` returns
`none`, modelling the `ZeroDivisionError`), and at `N = -1` the run is not
rejected either — it completes with total `-1`. -/
theorem C2_no_validation_of_num :
    main_model demoLoss 0 = none ∧
      main_model demoLoss (-1) = some ([], 0, 0) := by
  constructor
  · rfl
  · show (if (-1 : Int) = 0 then none else some _) = _
    rw [if_neg (by decide)]
    show some (([] : List GameResult), 0, (0 : Rat) / ((-1 : Int) : Rat)) = _
    norm_num

/-- **C3 counterexample.** The claim states that a keyed mapping whose
recognized key holds a negative string — `{"correct": "no"}` or
`{"result": "false"}` — normalizes to false. In the code `bool(res[key])`
is Python truthiness, and a nonempty string is truthy, so both normalize
to true. -/
theorem C3_counterexample :
    _parse_guess_result (.rdict [("correct", .rstr "no")]) = true ∧
      _parse_guess_result (.rdict [("result", .rstr "false")]) = true := by
  exact ⟨rfl, rfl⟩

/-- **C3 (amended).** `normalize_guess_result` returns false on every
unrecognized shape: non-bool/non-str/non-dict values, strings outside the
truthy set, and keyed mappings with no recognized key. But a recognized
key's value is coerced by Python truthiness, so a mapping whose recognized
key holds any nonempty string — even `"no"` — yields true, and a game can
be falsely won on such a response. -/
theorem C3_guess_result_default_false :
    (∀ t, _parse_guess_result (.rother t) = false) ∧
      (∀ s, pyLower (pyStrip s) ∉ truthyWords → _parse_guess_result (.rstr s) = false) ∧
      (∀ pairs, pairsFind guessKeys pairs = none →
        _parse_guess_result (.rdict pairs) = false) ∧
      (∀ pairs v, pairsFind guessKeys pairs = some v →
        _parse_guess_result (.rdict pairs) = pyTruthy v) := by
  refine ⟨fun t => rfl, ?_, ?_, ?_⟩
  · intro s h
    simp only [_parse_guess_result]
    simpa [truthyWords] using h
  · intro pairs h
    simp only [_parse_guess_result]
    rw [h]
  · intro pairs v h
    simp only [_parse_guess_result]
    rw [h]

/-- Witness for C3's amended theorem at concrete inputs. -/
theorem C3_witness :
    _parse_guess_result (.rstr "nope") = false ∧
      _parse_guess_result (.rdict [("foo", .rbool true)]) = false ∧
      _parse_guess_result (.rdict [("correct", .rstr "no")]) = pyTruthy (.rstr "no") :=
  ⟨C3_guess_result_default_false.2.1 "nope" (by decide),
    C3_guess_result_default_false.2.2.1 [("foo", .rbool true)] rfl,
    C3_guess_result_default_false.2.2.2 [("correct", .rstr "no")] (.rstr "no") rfl⟩

/-- **C4.** The deduplicator makes at most 5 retries (so the sub-step
terminates), and within one game two accepted guesses can only be
case-insensitively equal if the later one's round exhausted the retry
bound of 5 while the agent was still producing duplicates. -/
theorem C4_no_duplicate_guess_unless_exhausted (agent : Nat → Obs → String)
    (vq vg : Nat → String → Raw) (calls : Nat → String) (past : List String) :
    (dedupGuess calls past).2 ≤ 5 ∧
      ∀ i j, 1 ≤ i → i < j →
        pyNormGuess (guessAt agent vq vg i) = pyNormGuess (guessAt agent vq vg j) →
        triesAt agent vq vg j = 5 := by
  refine ⟨dedupGuess_tries_le calls past, ?_⟩
  intro i j hi hij heq
  obtain ⟨m, rfl⟩ : ∃ m, j = m + 1 := ⟨j - 1, by omega⟩
  obtain ⟨C, hg, ht⟩ := roundAt_dedup agent vq vg m
  have htle : triesAt agent vq vg (m + 1) ≤ 5 := by
    rw [triesAt, ht]
    exact dedupGuess_tries_le _ _
  by_contra hne
  have hlt : (dedupGuess C ((stateAfter agent vq vg m).pastNorm)).2 < 5 := by
    rw [triesAt] at hne htle
    rw [ht] at hne htle
    omega
  have hfresh := dedupGuess_fresh C ((stateAfter agent vq vg m).pastNorm) hlt
  apply hfresh
  rw [← hg]
  rw [stateAfter_pastNorm_eq_map]
  have hgj : (roundAt agent vq vg (m + 1)).guess = guessAt agent vq vg (m + 1) := rfl
  rw [hgj, ← heq]
  exact List.mem_map_of_mem pyNormGuess
    (guessAt_mem_stateAfter agent vq vg i m hi (by omega))

/-- Witness for C4: with an agent that always guesses `"lion"`, round 2's
accepted guess duplicates round 1's and the bound is exhausted. -/
theorem C4_witness :
    (dedupGuess (fun _ => "lion") ["lion"]).2 ≤ 5 ∧
      triesAt demoAgent demoVq demoVgLose 2 = 5 :=
  ⟨(C4_no_duplicate_guess_unless_exhausted demoAgent demoVq demoVgLose
      (fun _ => "lion") ["lion"]).1,
    (C4_no_duplicate_guess_unless_exhausted demoAgent demoVq demoVgLose
      (fun _ => "lion") ["lion"]).2 1 2 (by decide) (by decide) rfl⟩

/-- **C5.** `normalize_answer` is total (a Lean function), always returns a
value in `{yes, no, maybe}`, and coincides with the reference definition
built from the spec's words (boolean mapping, synonym table on trimmed
case-folded text, recursive resolution of the first present priority key,
`maybe` for every other shape). -/
theorem C5_normalize_answer_refines_spec :
    ∀ r, _normalize_answer r = normalize_answer_spec r ∧
      _normalize_answer r ∈ (["yes", "no", "maybe"] : List String) :=
  fun r => ⟨normalize_answer_eq_spec r, normalize_answer_mem r⟩

/-- **C6.** `normalize_guess_result` coincides with the reference definition
built from the spec's words: booleans pass through, trimmed
case-insensitive text is matched against the fixed truthy set, a keyed
mapping is resolved by the first present key among the priority list with
its value coerced to boolean, and every other shape gives false. -/
theorem C6_parse_guess_result_refines_spec :
    ∀ r, _parse_guess_result r = parse_guess_result_spec r :=
  parse_guess_result_eq_spec

/-- **C7.** The driver runs exactly `N` games sequentially (the i-th result
is the i-th game outcome) and aggregates correctly: `wins` counts the games
with `won = true`, the total is `N`, and the win rate is the exact rational
`wins/N` (its one-decimal percent rendering is stdout formatting, outside
the core per spec §6). -/
theorem C7_driver_aggregation (game : Nat → GameResult) (num : Int) (h : 1 ≤ num) :
    ∃ results wins rate, main_model game num = some (results, wins, rate) ∧
      results = (List.range num.toNat).map (fun i => game (i + 1)) ∧
      results.length = num.toNat ∧
      wins = (results.filter (fun r => r.won)).length ∧
      rate = (wins : Rat) / (num : Rat) := by
  refine ⟨(List.range num.toNat).map (fun i => game (i + 1)), _, _, ?_, rfl, ?_, rfl, rfl⟩
  · show (if num = 0 then none else some _) = some _
    rw [if_neg (by omega)]
    rw [foldl_win_count]
    rw [Nat.zero_add]
  · rw [List.length_map, List.length_range]

/-- Witness for C7: two games, one win. -/
theorem C7_witness :
    ∃ results wins rate, main_model demoMixed 2 = some (results, wins, rate) ∧
      results = (List.range (2 : Int).toNat).map (fun i => demoMixed (i + 1)) ∧
      results.length = (2 : Int).toNat ∧
      wins = (results.filter (fun r => r.won)).length ∧
      rate = (wins : Rat) / ((2 : Int) : Rat) :=
  C7_driver_aggregation demoMixed 2 (by decide)

/-- **C8.** The protocol never aborts on a blank agent response: on an ASK
turn a blank result is replaced by the fixed fallback question, and on a
GUESS turn every blank attempt (the first and each dedup retry) is replaced
by `"unknown"`, which is then the accepted guess. -/
theorem C8_blank_response_fallbacks :
    (∀ (agent : Nat → Obs → String) (vq vg : Nat → String → Raw) (qnum : Nat) (st : GState),
        pyStrip (agent st.acalls (mkAskObs st)) = "" →
        (roundStep agent vq vg qnum st).state.questions = st.questions ++ [FALLBACK_QUESTION]) ∧
      ∀ (calls : Nat → String) (past : List String),
        (∀ k, pyStrip (calls k) = "") → (dedupGuess calls past).1 = "unknown" := by
  constructor
  · intro agent vq vg qnum st h
    rw [roundStep_state_questions, h]
    rfl
  · exact dedupGuess_unknown

/-- Witness for C8: the blank agent. -/
theorem C8_witness :
    (roundStep blankAgent demoVq demoVgLose 1 initState).state.questions =
        initState.questions ++ [FALLBACK_QUESTION] ∧
      (dedupGuess (fun _ => "") []).1 = "unknown" :=
  ⟨C8_blank_response_fallbacks.1 blankAgent demoVq demoVgLose 1 initState rfl,
    C8_blank_response_fallbacks.2 (fun _ => "") [] (fun _ => rfl)⟩

/-- **C9.** The canonical strings are fixed points of `normalize_answer`,
and consequently `normalize_answer` is idempotent: re-normalizing any
normalized answer leaves it unchanged. -/
theorem C9_normalize_answer_idempotent :
    _normalize_answer (.rstr "yes") = "yes" ∧ _normalize_answer (.rstr "no") = "no" ∧
      _normalize_answer (.rstr "maybe") = "maybe" ∧
      ∀ r, _normalize_answer (.rstr (_normalize_answer r)) = _normalize_answer r := by
  obtain ⟨h1, h2, h3⟩ := normalize_answer_canonical_fixed
  refine ⟨h1, h2, h3, ?_⟩
  intro r
  have hmem := normalize_answer_mem r
  simp only [List.mem_cons, List.not_mem_nil, or_false] at hmem
  rcases hmem with h | h | h <;> rw [h] <;> assumption

/-- **C10.** With `max_rounds ≤ 0` the round loop body never executes —
the result does not depend on the agent or the oracle at all — and the
function returns `won = false`, `final_guess = ""` and
`rounds_used = max_rounds`. -/
theorem C10_nonpositive_max_rounds (agent : Nat → Obs → String)
    (vq vg : Nat → String → Raw) (M : Int) (h : M ≤ 0) :
    run_single_game agent vq vg M = ⟨false, "", M⟩ := by
  unfold run_single_game
  have hM : M.toNat = 0 := by omega
  rw [hM]
  rfl

/-- Witness for C10 at `max_rounds = 0`. -/
theorem C10_witness : run_single_game demoAgent demoVq demoVgWin 0 = ⟨false, "", 0⟩ :=
  C10_nonpositive_max_rounds demoAgent demoVq demoVgWin 0 (by decide)
